import Mathlib

/-!
Verification of `scripts/compile_apertium.py`, the batch build pipeline that
clones each language's Apertium repository, runs its autotools build, harvests
compiled artifacts, and packages them with a license and a metadata descriptor.

The script is embedded shallowly: every external effect (process invocation,
filesystem copy, directory creation, printing) is recorded as an `Event` in a
trace, non-zero exits of external tools and other raised exceptions become an
`Except Err` result, and the outside environment (which tools are on PATH, the
exit code of each external command, the files present in a working copy, the
result of `git rev-parse`, the current UTC date) is an oracle `World`.
-/

namespace CompileApertium

/-- One entry of the configuration file's top-level `"languages"` list: a
partial record of JSON fields (a field absent from the JSON object is `none`). -/
structure Entry where
  code : Option String
  name : Option String
  repo : Option String
  script : Option String
  quality : Option String
  ref : Option String
deriving Repr, DecidableEq

/-- The validated in-memory language specification (dataclass `LanguageSpec`). -/
structure LanguageSpec where
  code : String
  name : String
  repo : String
  script : String
  quality : String
  ref : Option String := none
deriving Repr, DecidableEq

/-- The external commands the script shells out to. -/
inductive Cmd where
  | clone (repo : String) (dest : String)
  | checkout (ref : String) (cwd : String)
  | autoreconf (cwd : String)
  | autogen (cwd : String)
  | configure (cwd : String)
  | make (jobs : String) (cwd : String)
  | revParse (cwd : String)
deriving Repr, DecidableEq

/-- Observable effects of the script, in the order they are performed. -/
inductive Event where
  | print (s : String)
  | run (c : Cmd)
  | rmtree (path : String)
  | mkdir (path : String)
  | copyFile (src : String) (dst : String)
  | writeFile (path : String)
deriving Repr, DecidableEq

/-- Exceptions the script can raise: `KeyError` on a missing required config
field, `RuntimeError` from the tool check, `subprocess.CalledProcessError`
from a non-zero external exit, and `FileNotFoundError` for the fallback
license. -/
inductive Err where
  | configError (field : String)
  | envError (msg : String)
  | processError (c : Cmd) (exitCode : Nat)
  | fileNotFound (msg : String)
deriving Repr, DecidableEq

/-- A file found inside a working copy by `Path.rglob`: its full source path
and its base filename (`path.name`). -/
structure RepoFile where
  src : String
  name : String
deriving Repr, DecidableEq

/-- The oracle for the outside environment: tool resolution (`shutil.which`),
exit codes of external commands, `os.cpu_count()`, the files present in each
working copy, which candidate license names exist in a working copy's root,
the output of `git rev-parse HEAD`, the formatted current UTC date, and the
repository-level fallback `LICENSE`. -/
structure World where
  which : String → Bool
  cmdExit : Cmd → Nat
  cpuCount : Option Nat
  repoFiles : String → List RepoFile
  rootHas : String → String → Bool
  revParse : String → Option String
  today : String
  fallbackExists : Bool
  fallbackPath : String

/-- The list `REQUIRED_TOOLS` from the script. -/
def REQUIRED_TOOLS : List String := ["git", "autoreconf", "make"]

/-- The list `LICENSE_CANDIDATES` from the script. -/
def LICENSE_CANDIDATES : List String :=
  ["COPYING", "LICENSE", "COPYING.LESSER", "COPYING.GPL"]

/-- The four harvest glob patterns of `_collect_outputs`. -/
def patterns : List String :=
  ["*.automorf.hfst", "*.autogen.hfst", "*.rlx.bin", "*.rlx"]

/-- Python `sep.join(items)`. -/
def pyJoin (sep : String) : List String → String
  | [] => ""
  | [a] => a
  | a :: b :: rest => a ++ sep ++ pyJoin sep (b :: rest)

/-- The argv words of each external command, as assembled by the script. -/
def cmdWords : Cmd → List String
  | Cmd.clone repo dest => ["git", "clone", "--depth", "1", repo, dest]
  | Cmd.checkout r _ => ["git", "checkout", r]
  | Cmd.autoreconf _ => ["autoreconf", "-fi"]
  | Cmd.autogen _ => ["./autogen.sh"]
  | Cmd.configure _ => ["./configure"]
  | Cmd.make jobs _ => ["make", "-j", jobs]
  | Cmd.revParse _ => ["git", "rev-parse", "HEAD"]

/-- The echoed command line, Python `' '.join(cmd)`. -/
def cmdString (c : Cmd) : String := pyJoin " " (cmdWords c)

/-- The helper `_run`: echo the command, invoke it, and raise `CalledProcessError`
(`check=True`) when its exit code is non-zero. -/
def _run (w : World) (c : Cmd) : List Event × Except Err Unit :=
  ([Event.print ("$ " ++ cmdString c), Event.run c],
   if w.cmdExit c = 0 then Except.ok ()
   else Except.error (Err.processError c (w.cmdExit c)))

/-- The check `_check_tools`: collect every required tool that `shutil.which` does not
resolve and raise a single `RuntimeError` naming them all; succeed when the
list is empty. -/
def _check_tools (which : String → Bool) : Except Err Unit :=
  let missing := REQUIRED_TOOLS.filter (fun t => !(which t))
  if missing.isEmpty then Except.ok ()
  else Except.error (Err.envError
    ("Missing required build tools: " ++ pyJoin ", " missing))

/-- Construction of one `LanguageSpec` from one config entry, with the
script's field-access order: `entry["code"]` first, then `entry["repo"]`,
then `entry["script"]`; `name` defaults to the code and `quality` to
`"unknown"`. A missing required field raises (`KeyError`). -/
def loadEntry (e : Entry) : Except Err LanguageSpec :=
  match e.code with
  | none => Except.error (Err.configError "code")
  | some c =>
    match e.repo with
    | none => Except.error (Err.configError "repo")
    | some r =>
      match e.script with
      | none => Except.error (Err.configError "script")
      | some sc =>
        Except.ok { code := c, name := e.name.getD c, repo := r, script := sc,
                    quality := e.quality.getD "unknown", ref := e.ref }

/-- The loader `_load_config`: build the spec list entry by entry, propagating the first
failure (the loop raises at the first entry with a missing required field). -/
def _load_config : List Entry → Except Err (List LanguageSpec)
  | [] => Except.ok []
  | e :: rest =>
    match loadEntry e with
    | Except.error err => Except.error err
    | Except.ok spec =>
      match _load_config rest with
      | Except.error err => Except.error err
      | Except.ok specs => Except.ok (spec :: specs)

/-- The `/` operator of `pathlib` as used by the script. -/
def pathJoin (a b : String) : String := a ++ "/" ++ b

/-- The deterministic working-copy path `work_dir / f"apertium-{spec.code}"`. -/
def repoDirOf (spec : LanguageSpec) (workDir : String) : String :=
  pathJoin workDir ("apertium-" ++ spec.code)

/-- The acquirer `_clone_repo`: remove the working copy when it exists and `clean` is set;
clone (shallow) when it does not exist; check out `spec.ref` when that is
truthy (a non-empty string); return the working-copy path. The filesystem is
a list of existing working-copy directories, threaded through. -/
def _clone_repo (w : World) (spec : LanguageSpec) (workDir : String)
    (clean : Bool) (fs : List String) :
    List Event × List String × Except Err String :=
  let repoDir := repoDirOf spec workDir
  let cleaned := if repoDir ∈ fs ∧ clean = true then
      (([Event.rmtree repoDir] : List Event), fs.filter (fun d => d ≠ repoDir))
    else ([], fs)
  let ev1 := cleaned.1
  let fs1 := cleaned.2
  let cloned :=
    if repoDir ∈ fs1 then (([] : List Event), fs1, Except.ok ())
    else
      let r := _run w (Cmd.clone spec.repo repoDir)
      match r.2 with
      | Except.ok _ => (r.1, repoDir :: fs1, Except.ok ())
      | Except.error e => (r.1, fs1, Except.error e)
  let ev2 := cloned.1
  let fs2 := cloned.2.1
  match cloned.2.2 with
  | Except.error e => (ev1 ++ ev2, fs2, Except.error e)
  | Except.ok _ =>
    match spec.ref with
    | some rf =>
      if rf.isEmpty then (ev1 ++ ev2, fs2, Except.ok repoDir)
      else
        let r := _run w (Cmd.checkout rf repoDir)
        match r.2 with
        | Except.ok _ => (ev1 ++ ev2 ++ r.1, fs2, Except.ok repoDir)
        | Except.error e => (ev1 ++ ev2 ++ r.1, fs2, Except.error e)
    | none => (ev1 ++ ev2, fs2, Except.ok repoDir)

/-- Python `str(os.cpu_count() or 2)`: `None` or `0` fall back to 2. -/
def jobsOf : Option Nat → Nat
  | some n => if n = 0 then 2 else n
  | none => 2

/-- The build runner `_compile_repo`: `autoreconf -fi`, falling back to `./autogen.sh` when
`autoreconf` exits non-zero; then `./configure`; then `make -j <jobs>`. The
first uncaught non-zero exit raises `CalledProcessError`. -/
def _compile_repo (w : World) (repoDir : String) : List Event × Except Err Unit :=
  let ra := _run w (Cmd.autoreconf repoDir)
  let boot :=
    match ra.2 with
    | Except.ok _ => (ra.1, Except.ok ())
    | Except.error _ =>
      let rb := _run w (Cmd.autogen repoDir)
      (ra.1 ++ rb.1, rb.2)
  match boot.2 with
  | Except.error e => (boot.1, Except.error e)
  | Except.ok _ =>
    let rc := _run w (Cmd.configure repoDir)
    match rc.2 with
    | Except.error e => (boot.1 ++ rc.1, Except.error e)
    | Except.ok _ =>
      let jobs := toString (jobsOf w.cpuCount)
      let rm := _run w (Cmd.make jobs repoDir)
      (boot.1 ++ rc.1 ++ rm.1, rm.2)

/-- Whether an `rglob` pattern of the shape `*<suffix>` matches a base
filename: the name ends with the suffix (fnmatch, `*` may match the empty
string). -/
def globMatch (pattern name : String) : Bool :=
  (pattern.drop 1).data.isSuffixOf name.data

/-- The inner loop of `_collect_outputs` for one pattern: copy each matching
file (in traversal order) to the output directory under its base filename and
record the destination. -/
def collectPattern (outDir : String) (files : List RepoFile) (pat : String) :
    List Event × List String :=
  match files with
  | [] => ([], [])
  | f :: rest =>
    let r := collectPattern outDir rest pat
    if globMatch pat f.name then
      (Event.copyFile f.src (pathJoin outDir f.name) :: r.1,
       pathJoin outDir f.name :: r.2)
    else r

/-- The outer loop of `_collect_outputs` over the pattern list. -/
def collectAll (outDir : String) (files : List RepoFile) :
    List String → List Event × List String
  | [] => ([], [])
  | pat :: rest =>
    let r := collectPattern outDir files pat
    let rr := collectAll outDir files rest
    (r.1 ++ rr.1, r.2 ++ rr.2)

/-- The harvester `_collect_outputs`: create the output directory (with parents, tolerant of
prior existence), then for each pattern copy every match and return the list
of copied destinations. -/
def _collect_outputs (repoFiles : List RepoFile) (outDir : String) :
    List Event × List String :=
  let r := collectAll outDir repoFiles patterns
  (Event.mkdir outDir :: r.1, r.2)

/-- The loop of `_copy_license` over the candidate list: copy the first
candidate present in the working copy's root to `LICENSE` and stop; copy the
fallback when the loop exhausts. -/
def copyLicenseGo (rootHas : String → Bool) (repoDir outDir fallback : String) :
    List String → List Event
  | [] => [Event.copyFile fallback (pathJoin outDir "LICENSE")]
  | c :: cs =>
    if rootHas c then
      [Event.copyFile (pathJoin repoDir c) (pathJoin outDir "LICENSE")]
    else copyLicenseGo rootHas repoDir outDir fallback cs

/-- The resolver `_copy_license`, the loop applied to `LICENSE_CANDIDATES`. -/
def _copy_license (rootHas : String → Bool) (repoDir outDir fallback : String) :
    List Event :=
  copyLicenseGo rootHas repoDir outDir fallback LICENSE_CANDIDATES

/-- The metadata dictionary of `_write_metadata`, in insertion order. -/
def metadataFields (spec : LanguageSpec) (commit today : String) :
    List (String × String) :=
  [("lang", spec.code), ("name", spec.name), ("script", spec.script),
   ("quality", spec.quality), ("source", spec.repo), ("commit", commit),
   ("compiled_date", today), ("license", "GPL-3.0-or-later")]

/-- The writer `_write_metadata`: query `git rev-parse HEAD` (recording `""` when the
query fails), assemble the descriptor, and write `metadata.json`. Returns the
trace and the descriptor fields. -/
def _write_metadata (w : World) (spec : LanguageSpec) (repoDir outDir : String) :
    List Event × List (String × String) :=
  let commit :=
    match w.revParse repoDir with
    | some c => c
    | none => ""
  ([Event.run (Cmd.revParse repoDir),
    Event.writeFile (pathJoin outDir "metadata.json")],
   metadataFields spec commit w.today)

/-- The filter `_filter_langs`: a falsy filter (`None` or the empty set) selects every
spec; otherwise keep the specs whose code is in the set. -/
def _filter_langs (specs : List LanguageSpec) (langs : Option (List String)) :
    List LanguageSpec :=
  match langs with
  | none => specs
  | some l => if l.isEmpty then specs else specs.filter (fun s => decide (s.code ∈ l))

/-- Python `s.split(",")` on the character list: split at every comma, keeping
empty segments. -/
def splitCommaChars : List Char → List (List Char)
  | [] => [[]]
  | c :: cs =>
    match splitCommaChars cs with
    | [] => [[]]
    | seg :: rest => if c = ',' then [] :: seg :: rest else (c :: seg) :: rest

/-- Python `str.strip()`: drop whitespace from both ends. -/
def pyStrip (l : List Char) : List Char :=
  ((l.dropWhile Char.isWhitespace).reverse.dropWhile Char.isWhitespace).reverse

/-- The `--langs` parsing of `main`: strip each comma-separated segment,
discard the empty ones, and treat an empty result as no filter
(`{...} or None`). -/
def parseLangs (s : String) : Option (List String) :=
  let segs := (splitCommaChars s.data).map (fun seg => String.mk (pyStrip seg))
  let items := segs.filter (fun c => !c.isEmpty)
  if items.isEmpty then none else some items

/-- The per-language loop of `main`: print the header, acquire, build,
harvest (warning when empty), copy the license, write the metadata, and
continue with the remaining specs. Any raised error propagates immediately,
ending the whole loop. -/
def processSpecs (w : World) (outDir workDir : String) (clean : Bool) :
    List String → List LanguageSpec → List Event × Except Err Unit
  | _, [] => ([], Except.ok ())
  | fs, spec :: rest =>
    let header := Event.print ("\n=== " ++ spec.code ++ " (" ++ spec.name ++ ") ===")
    let c := _clone_repo w spec workDir clean fs
    match c.2.2 with
    | Except.error e => (header :: c.1, Except.error e)
    | Except.ok repoDir =>
      let b := _compile_repo w repoDir
      match b.2 with
      | Except.error e => (header :: c.1 ++ b.1, Except.error e)
      | Except.ok _ =>
        let langOut := pathJoin outDir spec.code
        let h := _collect_outputs (w.repoFiles repoDir) langOut
        let warn := if h.2.isEmpty then
            [Event.print ("Warning: no output files found for " ++ spec.code)]
          else []
        let lic := _copy_license (w.rootHas repoDir) repoDir langOut w.fallbackPath
        let md := _write_metadata w spec repoDir langOut
        let rest' := processSpecs w outDir workDir clean c.2.1 rest
        (header :: c.1 ++ b.1 ++ h.1 ++ warn ++ lic ++ md.1 ++ rest'.1, rest'.2)

/-- The orchestrator `main`: check tools, load the config, resolve the language filter, exit 1
on an empty selection, verify the fallback license, create the work and
output roots, then run the per-language loop; print `Done.` and exit 0 when
the loop completes. `entries` is the `"languages"` list parsed from the
config file; `fs` is the set of pre-existing working-copy directories. -/
def main (w : World) (entries : List Entry) (outDir workDir langsArg : String)
    (clean : Bool) (fs : List String) : List Event × Except Err Nat :=
  match _check_tools w.which with
  | Except.error e => ([], Except.error e)
  | Except.ok _ =>
    match _load_config entries with
    | Except.error e => ([], Except.error e)
    | Except.ok specs0 =>
      let specs := _filter_langs specs0 (parseLangs langsArg)
      if specs.isEmpty then
        ([Event.print "No languages selected."], Except.ok 1)
      else if w.fallbackExists = false then
        ([], Except.error (Err.fileNotFound
          ("Missing fallback LICENSE at " ++ w.fallbackPath)))
      else
        let pre := [Event.mkdir workDir, Event.mkdir outDir]
        let r := processSpecs w outDir workDir clean fs specs
        match r.2 with
        | Except.error e => (pre ++ r.1, Except.error e)
        | Except.ok _ => (pre ++ r.1 ++ [Event.print "\nDone."], Except.ok 0)

/-- A string occurs inside another (as a contiguous run of characters). -/
def strContains (needle hay : String) : Prop :=
  ∃ s t, hay.data = s ++ needle.data ++ t

/-- Events that only echo a line, invoke an external command, or remove a
directory: the only effects acquisition and build can have. -/
def isShellEvent : Event → Bool
  | Event.print _ => true
  | Event.run _ => true
  | Event.rmtree _ => true
  | _ => false

/-- Equality of raised-or-returned results is decidable. -/
instance {ε α : Type} [DecidableEq ε] [DecidableEq α] :
    DecidableEq (Except ε α) := fun x y =>
  match x, y with
  | Except.ok a, Except.ok b =>
    if h : a = b then isTrue (by rw [h])
    else isFalse (fun hh => h (Except.ok.inj hh))
  | Except.error a, Except.error b =>
    if h : a = b then isTrue (by rw [h])
    else isFalse (fun hh => h (Except.error.inj hh))
  | Except.ok _, Except.error _ => isFalse (fun hh => Except.noConfusion hh)
  | Except.error _, Except.ok _ => isFalse (fun hh => Except.noConfusion hh)

/-! Concrete fixtures used by counterexamples and witnesses. -/

/-- A well-formed config entry for language `aaa`. -/
def entryA : Entry :=
  { code := some "aaa", name := none, repo := some "urlA", script := some "Latn",
    quality := none, ref := none }

/-- A well-formed config entry for language `bbb`. -/
def entryB : Entry :=
  { code := some "bbb", name := none, repo := some "urlB", script := some "Cyrl",
    quality := none, ref := none }

/-- A two-language configuration. -/
def entries0 : List Entry := [entryA, entryB]

/-- An entry missing its required `repo` field. -/
def entryBad : Entry :=
  { code := some "xxx", name := none, repo := none, script := some "Latn",
    quality := none, ref := none }

/-- The spec `_load_config` builds from `entryA`. -/
def specA : LanguageSpec :=
  { code := "aaa", name := "aaa", repo := "urlA", script := "Latn",
    quality := "unknown", ref := none }

/-- The spec `_load_config` builds from `entryB`. -/
def specB : LanguageSpec :=
  { code := "bbb", name := "bbb", repo := "urlB", script := "Cyrl",
    quality := "unknown", ref := none }

/-- A spec pinned to revision `v1`. -/
def specRef : LanguageSpec :=
  { code := "aaa", name := "aaa", repo := "urlA", script := "Latn",
    quality := "unknown", ref := some "v1" }

/-- An environment in which every tool resolves and every command succeeds. -/
def wAll : World :=
  { which := fun _ => true, cmdExit := fun _ => 0, cpuCount := some 4,
    repoFiles := fun _ => [], rootHas := fun _ _ => false,
    revParse := fun _ => some "0123abcd", today := "2026-10-12",
    fallbackExists := true, fallbackPath := "fb/LICENSE" }

/-- An environment in which only the revision query fails. -/
def wNoRev : World :=
  { which := fun _ => true, cmdExit := fun _ => 0, cpuCount := some 4,
    repoFiles := fun _ => [], rootHas := fun _ _ => false,
    revParse := fun _ => none, today := "2026-10-12",
    fallbackExists := true, fallbackPath := "fb/LICENSE" }

/-- An environment where cloning language `aaa` exits 1 and all else succeeds. -/
def wCloneFail : World :=
  { which := fun _ => true,
    cmdExit := fun c =>
      if c = Cmd.clone "urlA" (pathJoin "build" ("apertium-" ++ "aaa")) then 1 else 0,
    cpuCount := some 4, repoFiles := fun _ => [], rootHas := fun _ _ => false,
    revParse := fun _ => none, today := "2026-10-12",
    fallbackExists := true, fallbackPath := "fb/LICENSE" }

/-- An environment where `./configure` of language `aaa` exits 1 and all else
succeeds. -/
def wBuildFail : World :=
  { which := fun _ => true,
    cmdExit := fun c =>
      if c = Cmd.configure (pathJoin "build" ("apertium-" ++ "aaa")) then 1 else 0,
    cpuCount := some 4, repoFiles := fun _ => [], rootHas := fun _ _ => false,
    revParse := fun _ => none, today := "2026-10-12",
    fallbackExists := true, fallbackPath := "fb/LICENSE" }

/-- A working-copy root that holds only a `LICENSE` file. -/
def rootHas0 : String → Bool := fun c => c == "LICENSE"

/-- A working copy holding one harvestable artifact and one unrelated file. -/
def demoFiles : List RepoFile :=
  [{ src := "sub/x.automorf.hfst", name := "x.automorf.hfst" },
   { src := "sub/readme.txt", name := "readme.txt" }]

/-! Helper lemmas. -/

/-- A string occurs in itself. -/
theorem strContains_refl (s : String) : strContains s s :=
  ⟨[], [], by simp⟩

/-- Occurrence is preserved by prepending. -/
theorem strContains_append_left (p n h : String)
    (hc : strContains n h) : strContains n (p ++ h) := by
  rcases hc with ⟨s, t, e⟩
  exact ⟨p.data ++ s, t, by rw [String.data_append, e]; simp⟩

/-- Occurrence is preserved by appending. -/
theorem strContains_append_right (n h q : String)
    (hc : strContains n h) : strContains n (h ++ q) := by
  rcases hc with ⟨s, t, e⟩
  exact ⟨s, t ++ q.data, by rw [String.data_append, e]; simp⟩

/-- Every element of a list occurs inside its Python-style join. -/
theorem strContains_pyJoin (sep : String) :
    ∀ (l : List String) (t : String), t ∈ l → strContains t (pyJoin sep l) := by
  intro l
  induction l with
  | nil => intro t h; cases h
  | cons a rest ih =>
    intro t h
    cases rest with
    | nil =>
      rcases List.mem_singleton.mp h with rfl
      exact strContains_refl t
    | cons b rest2 =>
      rcases List.mem_cons.mp h with rfl | hmem
      · exact strContains_append_right _ _ _
          (strContains_append_right _ _ _ (strContains_refl t))
      · exact strContains_append_left _ _ _ (ih t hmem)

/-- C4: for every environment, when some subset of the required external
tools (`git`, `autoreconf`, `make`) does not resolve on the search path, the
tool check fails with a single environment error whose message mentions every
missing tool at once (not just the first); when none are missing it returns
success. -/
theorem C4_check_tools_enumerates_missing (which : String → Bool) :
    ((∀ t ∈ REQUIRED_TOOLS, which t = true) → _check_tools which = Except.ok ())
    ∧ ((∃ t ∈ REQUIRED_TOOLS, which t = false) →
        ∃ msg, _check_tools which = Except.error (Err.envError msg)
          ∧ ∀ t ∈ REQUIRED_TOOLS, which t = false → strContains t msg) := by
  constructor
  · intro hall
    have hnil : REQUIRED_TOOLS.filter (fun t => !(which t)) = [] := by
      apply List.filter_eq_nil_iff.mpr
      intro a ha
      simp [hall a ha]
    simp [_check_tools, hnil]
  · rintro ⟨t0, ht0mem, ht0⟩
    have hmem : t0 ∈ REQUIRED_TOOLS.filter (fun t => !(which t)) :=
      List.mem_filter.mpr ⟨ht0mem, by simp [ht0]⟩
    have hne : (REQUIRED_TOOLS.filter (fun t => !(which t))).isEmpty = false := by
      cases h : REQUIRED_TOOLS.filter (fun t => !(which t)) with
      | nil => rw [h] at hmem; cases hmem
      | cons x xs => rfl
    refine ⟨"Missing required build tools: " ++
        pyJoin ", " (REQUIRED_TOOLS.filter (fun t => !(which t))), ?_, ?_⟩
    · simp only [_check_tools, hne]
      rfl
    · intro t htm htf
      apply strContains_append_left
      apply strContains_pyJoin
      exact List.mem_filter.mpr ⟨htm, by simp [htf]⟩

/-- Witness for C4: with nothing on the search path, the check reports an
environment error whose message mentions every missing tool. -/
theorem C4_check_tools_enumerates_missing_witness :
    ∃ msg, _check_tools (fun _ => false) = Except.error (Err.envError msg)
      ∧ ∀ t ∈ REQUIRED_TOOLS, (fun _ : String => false) t = false → strContains t msg :=
  (C4_check_tools_enumerates_missing (fun _ => false)).2 ⟨"git", by decide, rfl⟩

/-- The candidate loop of `_copy_license` realizes first-match semantics:
when `find?` locates a first present candidate the loop copies exactly that
candidate (and every earlier candidate is absent); when no candidate is
present the loop copies the fallback. -/
theorem copyLicenseGo_first_match (rootHas : String → Bool)
    (repoDir outDir fallback : String) :
    ∀ cands : List String,
      (∀ c, cands.find? rootHas = some c →
        rootHas c = true
        ∧ (∃ l₁ l₂, cands = l₁ ++ c :: l₂ ∧ ∀ d ∈ l₁, rootHas d = false)
        ∧ copyLicenseGo rootHas repoDir outDir fallback cands =
            [Event.copyFile (pathJoin repoDir c) (pathJoin outDir "LICENSE")])
      ∧ (cands.find? rootHas = none →
        copyLicenseGo rootHas repoDir outDir fallback cands =
          [Event.copyFile fallback (pathJoin outDir "LICENSE")]) := by
  intro cands
  induction cands with
  | nil =>
    constructor
    · intro c h; simp [List.find?] at h
    · intro _; rfl
  | cons a rest ih =>
    by_cases ha : rootHas a = true
    · constructor
      · intro c h
        rw [List.find?_cons_of_pos rest ha] at h
        rcases Option.some.inj h with rfl
        exact ⟨ha, ⟨[], rest, rfl, by intro d hd; cases hd⟩,
          by simp [copyLicenseGo, ha]⟩
      · intro h
        rw [List.find?_cons_of_pos rest ha] at h
        cases h
    · constructor
      · intro c h
        rw [List.find?_cons_of_neg rest ha] at h
        rcases (ih.1 c h) with ⟨hc, ⟨l₁, l₂, hsplit, habsent⟩, hgo⟩
        refine ⟨hc, ⟨a :: l₁, l₂, by rw [hsplit]; rfl, ?_⟩, ?_⟩
        · intro d hd
          rcases List.mem_cons.mp hd with rfl | hd2
          · exact Bool.eq_false_iff.mpr (fun hh => ha hh)
          · exact habsent d hd2
        · simpa [copyLicenseGo, ha] using hgo
      · intro h
        rw [List.find?_cons_of_neg rest ha] at h
        simpa [copyLicenseGo, ha] using ih.2 h

/-- C7: license resolution copies to the fixed destination name `LICENSE` the
first file among the ordered candidates `COPYING`, `LICENSE`,
`COPYING.LESSER`, `COPYING.GPL` that exists in the working copy's root — when
several exist, the earliest in priority order wins — and copies the fallback
when none exists. -/
theorem C7_copy_license_first_candidate (rootHas : String → Bool)
    (repoDir outDir fallback : String) :
    (∀ c, LICENSE_CANDIDATES.find? rootHas = some c →
      rootHas c = true
      ∧ (∃ l₁ l₂, LICENSE_CANDIDATES = l₁ ++ c :: l₂ ∧ ∀ d ∈ l₁, rootHas d = false)
      ∧ _copy_license rootHas repoDir outDir fallback =
          [Event.copyFile (pathJoin repoDir c) (pathJoin outDir "LICENSE")])
    ∧ (LICENSE_CANDIDATES.find? rootHas = none →
      _copy_license rootHas repoDir outDir fallback =
        [Event.copyFile fallback (pathJoin outDir "LICENSE")]) :=
  copyLicenseGo_first_match rootHas repoDir outDir fallback LICENSE_CANDIDATES

/-- Witness for C7: in a root holding only `LICENSE` (so the first candidate
`COPYING` is absent), the second candidate is copied to `LICENSE`. -/
theorem C7_copy_license_first_candidate_witness :
    rootHas0 "LICENSE" = true
    ∧ (∃ l₁ l₂, LICENSE_CANDIDATES = l₁ ++ "LICENSE" :: l₂ ∧ ∀ d ∈ l₁, rootHas0 d = false)
    ∧ _copy_license rootHas0 "repo" "out" "fb" =
        [Event.copyFile (pathJoin "repo" "LICENSE") (pathJoin "out" "LICENSE")] :=
  (C7_copy_license_first_candidate rootHas0 "repo" "out" "fb").1 "LICENSE" (by decide)

/-- C8: the metadata descriptor holds exactly the eight fixed fields in the
script's insertion order; when the revision query fails the `commit` field is
present with the empty string, and when it succeeds the field holds the
query's output; the `license` field is the fixed identifier, the
`compiled_date` field is the formatted current UTC date, and the descriptor
file is written in every case. -/
theorem C8_metadata_eight_fields (w : World) (spec : LanguageSpec)
    (repoDir outDir : String) :
    ((_write_metadata w spec repoDir outDir).2).map Prod.fst =
      ["lang", "name", "script", "quality", "source", "commit",
       "compiled_date", "license"]
    ∧ (w.revParse repoDir = none →
        ((_write_metadata w spec repoDir outDir).2).lookup "commit" = some "")
    ∧ (∀ c, w.revParse repoDir = some c →
        ((_write_metadata w spec repoDir outDir).2).lookup "commit" = some c)
    ∧ ((_write_metadata w spec repoDir outDir).2).lookup "license" =
        some "GPL-3.0-or-later"
    ∧ ((_write_metadata w spec repoDir outDir).2).lookup "compiled_date" =
        some w.today
    ∧ Event.writeFile (pathJoin outDir "metadata.json") ∈
        (_write_metadata w spec repoDir outDir).1 := by
  refine ⟨rfl, ?_, ?_, ?_, ?_, ?_⟩
  · intro hnone
    simp [_write_metadata, metadataFields, hnone, List.lookup]
  · intro c hc
    simp [_write_metadata, metadataFields, hc, List.lookup]
  · cases h : w.revParse repoDir <;> simp [_write_metadata, metadataFields, h, List.lookup]
  · cases h : w.revParse repoDir <;> simp [_write_metadata, metadataFields, h, List.lookup]
  · simp [_write_metadata]

/-- Witness for C8: a failing revision query leaves `commit` present and
empty, with all eight fields in place. -/
theorem C8_metadata_eight_fields_witness :
    ((_write_metadata wNoRev specA "r" "o").2).lookup "commit" = some ""
    ∧ ((_write_metadata wNoRev specA "r" "o").2).map Prod.fst =
      ["lang", "name", "script", "quality", "source", "commit",
       "compiled_date", "license"] :=
  ⟨(C8_metadata_eight_fields wNoRev specA "r" "o").2.1 rfl,
   (C8_metadata_eight_fields wNoRev specA "r" "o").1⟩

/-- Splitting never produces the empty segment list. -/
theorem splitCommaChars_ne_nil (l : List Char) : splitCommaChars l ≠ [] := by
  cases l with
  | nil => simp [splitCommaChars]
  | cons c cs =>
    simp only [splitCommaChars]
    cases h : splitCommaChars cs with
    | nil => simp
    | cons seg rest =>
      by_cases hc : c = ',' <;> simp [hc]

/-- When the input consists only of commas and whitespace, every character of
every segment is whitespace. -/
theorem splitCommaChars_all_ws :
    ∀ l : List Char, (∀ c ∈ l, c = ',' ∨ c.isWhitespace = true) →
      ∀ seg ∈ splitCommaChars l, ∀ c ∈ seg, c.isWhitespace = true := by
  intro l
  induction l with
  | nil =>
    intro _ seg hseg c hc
    simp [splitCommaChars] at hseg
    subst hseg
    cases hc
  | cons a cs ih =>
    intro hl seg hseg c hc
    have hcs : ∀ x ∈ cs, x = ',' ∨ x.isWhitespace = true :=
      fun x hx => hl x (List.mem_cons_of_mem a hx)
    have ha := hl a (List.mem_cons_self a cs)
    rcases hrec : splitCommaChars cs with _ | ⟨seg₀, rest⟩
    · exact absurd hrec (splitCommaChars_ne_nil cs)
    · by_cases hcomma : a = ','
      · have hseg' : seg ∈ ([] :: seg₀ :: rest : List (List Char)) := by
          simpa [splitCommaChars, hrec, hcomma] using hseg
        rcases List.mem_cons.mp hseg' with rfl | hseg2
        · cases hc
        · exact ih hcs seg (by rw [hrec]; exact hseg2) c hc
      · have ha' : a.isWhitespace = true := by
          rcases ha with h | h
          · exact absurd h hcomma
          · exact h
        have hseg' : seg ∈ ((a :: seg₀) :: rest : List (List Char)) := by
          simpa [splitCommaChars, hrec, hcomma] using hseg
        rcases List.mem_cons.mp hseg' with rfl | hseg2
        · rcases List.mem_cons.mp hc with rfl | hc2
          · exact ha'
          · exact ih hcs seg₀ (by rw [hrec]; exact List.mem_cons_self seg₀ rest) c hc2
        · exact ih hcs seg (by rw [hrec]; exact List.mem_cons_of_mem seg₀ hseg2) c hc

/-- Dropping a universally-satisfied predicate consumes the whole list. -/
theorem dropWhile_eq_nil_of_all {α : Type} (p : α → Bool) :
    ∀ l : List α, (∀ c ∈ l, p c = true) → l.dropWhile p = [] := by
  intro l
  induction l with
  | nil => intro _; rfl
  | cons a cs ih =>
    intro h
    rw [List.dropWhile_cons, if_pos (h a (List.mem_cons_self a cs))]
    exact ih (fun c hc => h c (List.mem_cons_of_mem a hc))

/-- Stripping an all-whitespace segment yields the empty string. -/
theorem pyStrip_eq_nil (l : List Char)
    (h : ∀ c ∈ l, c.isWhitespace = true) : pyStrip l = [] := by
  unfold pyStrip
  rw [dropWhile_eq_nil_of_all Char.isWhitespace l h]
  rfl

/-- A `--langs` argument of only commas and whitespace parses to no filter. -/
theorem parseLangs_eq_none (s : String)
    (h : ∀ c ∈ s.data, c = ',' ∨ c.isWhitespace = true) :
    parseLangs s = none := by
  unfold parseLangs
  have hsegs : ∀ x ∈ (splitCommaChars s.data).map (fun seg => String.mk (pyStrip seg)),
      x.isEmpty = true := by
    intro x hx
    rcases List.mem_map.mp hx with ⟨seg, hseg, rfl⟩
    rw [pyStrip_eq_nil seg (splitCommaChars_all_ws s.data h seg hseg)]
    rfl
  have hnil : ((splitCommaChars s.data).map
      (fun seg => String.mk (pyStrip seg))).filter (fun c => !c.isEmpty) = [] := by
    apply List.filter_eq_nil_iff.mpr
    intro a ha
    simp [hsegs a ha]
  simp [hnil]

/-- C10: a `--langs` argument consisting only of commas and whitespace
(including the empty string) is treated as no filter at all: segments are
stripped, empty segments are discarded, the empty outcome collapses to
`None`, and every configured language is kept in declaration order. -/
theorem C10_blank_filter_selects_all (s : String) (specs : List LanguageSpec)
    (h : ∀ c ∈ s.data, c = ',' ∨ c.isWhitespace = true) :
    parseLangs s = none ∧ _filter_langs specs (parseLangs s) = specs := by
  have hn := parseLangs_eq_none s h
  exact ⟨hn, by rw [hn]; rfl⟩

/-- Witness for C10: an argument of commas, spaces and a tab selects the
whole two-language configuration. -/
theorem C10_blank_filter_selects_all_witness :
    parseLangs " , ,,\t " = none
    ∧ _filter_langs [specA, specB] (parseLangs " , ,,\t ") = [specA, specB] :=
  C10_blank_filter_selects_all " , ,,\t " [specA, specB] (by decide)

/-- The entry loader `loadEntry` only ever fails with a missing-required-field error. -/
theorem loadEntry_error_shape (e : Entry) (err : Err)
    (h : loadEntry e = Except.error err) : ∃ f, err = Err.configError f := by
  unfold loadEntry at h
  rcases hc : e.code with _ | c <;> rw [hc] at h
  · exact ⟨"code", (Except.error.inj h).symm⟩
  · rcases hr : e.repo with _ | r <;> rw [hr] at h
    · exact ⟨"repo", (Except.error.inj h).symm⟩
    · rcases hs : e.script with _ | sc <;> rw [hs] at h
      · exact ⟨"script", (Except.error.inj h).symm⟩
      · cases h

/-- A configuration containing an entry with a missing required field fails
to load, with a missing-field error. -/
theorem load_config_error_of_bad (entries : List Entry)
    (h : ∃ e ∈ entries, e.code = none ∨ e.repo = none ∨ e.script = none) :
    ∃ f, _load_config entries = Except.error (Err.configError f) := by
  induction entries with
  | nil => rcases h with ⟨e, he, _⟩; cases he
  | cons a rest ih =>
    rcases h with ⟨e, he, hbad⟩
    rcases List.mem_cons.mp he with rfl | hmem
    · have hload : ∃ f, loadEntry e = Except.error (Err.configError f) := by
        rcases hc : e.code with _ | c
        · exact ⟨"code", by simp [loadEntry, hc]⟩
        · rcases hr : e.repo with _ | r
          · exact ⟨"repo", by simp [loadEntry, hc, hr]⟩
          · rcases hs : e.script with _ | sc
            · exact ⟨"script", by simp [loadEntry, hc, hr, hs]⟩
            · rcases hbad with h1 | h2 | h3
              · rw [hc] at h1; cases h1
              · rw [hr] at h2; cases h2
              · rw [hs] at h3; cases h3
      rcases hload with ⟨f, hf⟩
      exact ⟨f, by simp [_load_config, hf]⟩
    · rcases hl : loadEntry a with err | spec
      · rcases loadEntry_error_shape a err hl with ⟨f, rfl⟩
        exact ⟨f, by simp [_load_config, hl]⟩
      · rcases ih ⟨e, hmem, hbad⟩ with ⟨f, hf⟩
        exact ⟨f, by simp [_load_config, hl, hf]⟩

/-- C3: a configuration with an entry lacking a required field (`code`,
`repo` or `script`) makes loading fail with a missing-field error, and the
program raises it before any work: the run's trace is empty, so no clone or
build is attempted for any entry. -/
theorem C3_config_error_before_any_work (w : World) (entries : List Entry)
    (outDir workDir langsArg : String) (clean : Bool) (fs : List String)
    (htools : _check_tools w.which = Except.ok ())
    (hbad : ∃ e ∈ entries, e.code = none ∨ e.repo = none ∨ e.script = none) :
    ∃ f, _load_config entries = Except.error (Err.configError f)
      ∧ main w entries outDir workDir langsArg clean fs =
          ([], Except.error (Err.configError f)) := by
  rcases load_config_error_of_bad entries hbad with ⟨f, hf⟩
  exact ⟨f, hf, by simp [main, htools, hf]⟩

/-- Witness for C3: a one-entry configuration missing `repo` aborts with an
empty trace. -/
theorem C3_config_error_before_any_work_witness :
    ∃ f, _load_config [entryBad] = Except.error (Err.configError f)
      ∧ main wAll [entryBad] "dist" "build" "" false [] =
          ([], Except.error (Err.configError f)) :=
  C3_config_error_before_any_work wAll [entryBad] "dist" "build" "" false []
    rfl ⟨entryBad, by simp, Or.inr (Or.inl rfl)⟩

/-- The inner harvest loop copies exactly the files matching the pattern, in
traversal order, flattened to their base filenames. -/
theorem collectPattern_eq (outDir pat : String) (files : List RepoFile) :
    collectPattern outDir files pat =
      ((files.filter (fun f => globMatch pat f.name)).map
         (fun f => Event.copyFile f.src (pathJoin outDir f.name)),
       (files.filter (fun f => globMatch pat f.name)).map
         (fun f => pathJoin outDir f.name)) := by
  induction files with
  | nil => rfl
  | cons f rest ih =>
    by_cases h : globMatch pat f.name = true
    · simp [collectPattern, h, ih, List.filter_cons]
    · simp [collectPattern, h, ih, List.filter_cons]

/-- The outer harvest loop concatenates the per-pattern copies and
destinations over the pattern list. -/
theorem collectAll_eq (outDir : String) (files : List RepoFile)
    (pats : List String) :
    collectAll outDir files pats =
      (pats.flatMap (fun pat => (files.filter (fun f => globMatch pat f.name)).map
         (fun f => Event.copyFile f.src (pathJoin outDir f.name))),
       pats.flatMap (fun pat => (files.filter (fun f => globMatch pat f.name)).map
         (fun f => pathJoin outDir f.name))) := by
  induction pats with
  | nil => rfl
  | cons p ps ih => simp [collectAll, collectPattern_eq, ih, List.flatMap_cons]

/-- Joining under a fixed directory is injective in the filename. -/
theorem pathJoin_right_inj (d a b : String) (h : pathJoin d a = pathJoin d b) :
    a = b := by
  unfold pathJoin at h
  have h2 := congrArg String.data h
  rw [String.data_append, String.data_append] at h2
  exact String.ext (List.append_cancel_left h2)

/-- C6: harvesting creates the output directory first, copies exactly the
files of the working copy whose base filename matches one of the four fixed
patterns (and no others), flattened to their base filenames under the output
directory, and returns the list of copied destination paths; a file lands in
the result precisely when it matches some pattern; when nothing matches the
result is empty, and in the pipeline an empty harvest only prints a warning
and the language's iteration still finishes without an error. -/
theorem C6_collect_outputs_exact (repoFiles : List RepoFile) (outDir : String) :
    (_collect_outputs repoFiles outDir).1 =
      Event.mkdir outDir ::
        patterns.flatMap (fun pat =>
          (repoFiles.filter (fun f => globMatch pat f.name)).map
            (fun f => Event.copyFile f.src (pathJoin outDir f.name)))
    ∧ (_collect_outputs repoFiles outDir).2 =
        patterns.flatMap (fun pat =>
          (repoFiles.filter (fun f => globMatch pat f.name)).map
            (fun f => pathJoin outDir f.name))
    ∧ (∀ f ∈ repoFiles,
        ((∃ pat ∈ patterns, globMatch pat f.name = true) ↔
          pathJoin outDir f.name ∈ (_collect_outputs repoFiles outDir).2))
    ∧ ((∀ f ∈ repoFiles, ∀ pat ∈ patterns, globMatch pat f.name = false) →
        (_collect_outputs repoFiles outDir).2 = [])
    ∧ (∀ (w : World) (workDir : String) (clean : Bool) (fs : List String)
         (spec : LanguageSpec) (repoDir : String),
        (_clone_repo w spec workDir clean fs).2.2 = Except.ok repoDir →
        (_compile_repo w repoDir).2 = Except.ok () →
        (_collect_outputs (w.repoFiles repoDir) (pathJoin outDir spec.code)).2 = [] →
        Event.print ("Warning: no output files found for " ++ spec.code) ∈
            (processSpecs w outDir workDir clean fs [spec]).1
          ∧ (processSpecs w outDir workDir clean fs [spec]).2 = Except.ok ()) := by
  have hfst : (_collect_outputs repoFiles outDir).1 =
      Event.mkdir outDir ::
        patterns.flatMap (fun pat =>
          (repoFiles.filter (fun f => globMatch pat f.name)).map
            (fun f => Event.copyFile f.src (pathJoin outDir f.name))) := by
    simp [_collect_outputs, collectAll_eq]
  have hsnd : (_collect_outputs repoFiles outDir).2 =
      patterns.flatMap (fun pat =>
        (repoFiles.filter (fun f => globMatch pat f.name)).map
          (fun f => pathJoin outDir f.name)) := by
    simp [_collect_outputs, collectAll_eq]
  refine ⟨hfst, hsnd, ?_, ?_, ?_⟩
  · intro f hf
    rw [hsnd]
    constructor
    · rintro ⟨pat, hpat, hmatch⟩
      exact List.mem_flatMap.mpr ⟨pat, hpat,
        List.mem_map.mpr ⟨f, List.mem_filter.mpr ⟨hf, hmatch⟩, rfl⟩⟩
    · intro hmem
      rcases List.mem_flatMap.mp hmem with ⟨pat, hpat, hmap⟩
      rcases List.mem_map.mp hmap with ⟨f2, hf2, heq⟩
      have hname : f2.name = f.name := pathJoin_right_inj outDir _ _ heq
      rcases List.mem_filter.mp hf2 with ⟨_, hmatch2⟩
      exact ⟨pat, hpat, by rw [← hname]; exact hmatch2⟩
  · intro hnone
    rw [hsnd]
    apply List.flatMap_eq_nil_iff.mpr
    intro pat hpat
    rw [List.map_eq_nil_iff]
    apply List.filter_eq_nil_iff.mpr
    intro f hf
    simp [hnone f hf pat hpat]
  · intro w workDir clean fs spec repoDir hclone hbuild hempty
    have : processSpecs w outDir workDir clean fs [spec] =
        (Event.print ("\n=== " ++ spec.code ++ " (" ++ spec.name ++ ") ===") ::
           (_clone_repo w spec workDir clean fs).1
           ++ (_compile_repo w repoDir).1
           ++ (_collect_outputs (w.repoFiles repoDir) (pathJoin outDir spec.code)).1
           ++ [Event.print ("Warning: no output files found for " ++ spec.code)]
           ++ _copy_license (w.rootHas repoDir) repoDir (pathJoin outDir spec.code)
               w.fallbackPath
           ++ (_write_metadata w spec repoDir (pathJoin outDir spec.code)).1,
         Except.ok ()) := by
      simp [processSpecs, hclone, hbuild, hempty]
    rw [this]
    constructor
    · simp
    · rfl

/-- Witness for C6: with one matching artifact and one unrelated file, the
artifact's flattened destination is returned. -/
theorem C6_collect_outputs_exact_witness :
    pathJoin "out" "x.automorf.hfst" ∈ (_collect_outputs demoFiles "out").2 :=
  ((C6_collect_outputs_exact demoFiles "out").2.2.1
      { src := "sub/x.automorf.hfst", name := "x.automorf.hfst" } (by decide)).mp
    ⟨"*.automorf.hfst", by decide, by decide⟩

/-- A parsed filter is never the empty set: emptiness collapsed to `none`. -/
theorem parseLangs_some_ne_nil (s : String) (l : List String)
    (h : parseLangs s = some l) : l.isEmpty = false := by
  simp only [parseLangs] at h
  split at h
  · cases h
  · next hcond =>
    rcases Option.some.inj h with rfl
    exact Bool.eq_false_iff.mpr hcond

/-- C9: when the requested subset matches no configured code, the resolved
processing set is empty and the program prints `No languages selected.` and
exits with code 1, processing nothing; and a fully successful run (nonempty
selection, fallback license present, per-language loop completing without
error) exits with code 0. -/
theorem C9_exit_codes (w : World) (entries : List Entry)
    (outDir workDir langsArg : String) (clean : Bool) (fs : List String)
    (specs0 : List LanguageSpec)
    (htools : _check_tools w.which = Except.ok ())
    (hload : _load_config entries = Except.ok specs0) :
    (∀ l, parseLangs langsArg = some l →
       (∀ s ∈ specs0, s.code ∉ l) →
       _filter_langs specs0 (parseLangs langsArg) = []
       ∧ main w entries outDir workDir langsArg clean fs =
           ([Event.print "No languages selected."], Except.ok 1))
    ∧ ((_filter_langs specs0 (parseLangs langsArg)).isEmpty = false →
       w.fallbackExists = true →
       (processSpecs w outDir workDir clean fs
          (_filter_langs specs0 (parseLangs langsArg))).2 = Except.ok () →
       (main w entries outDir workDir langsArg clean fs).2 = Except.ok 0) := by
  constructor
  · intro l hsome hnomatch
    have hne := parseLangs_some_ne_nil langsArg l hsome
    have hfilt : _filter_langs specs0 (parseLangs langsArg) = [] := by
      rw [hsome]
      simp only [_filter_langs, hne, Bool.false_eq_true, if_false]
      apply List.filter_eq_nil_iff.mpr
      intro s hs
      simp [hnomatch s hs]
    refine ⟨hfilt, ?_⟩
    simp [main, htools, hload, hfilt]
  · intro hne hfb hloop
    simp [main, htools, hload, hne, hfb, hloop]

/-- Witness for C9: filtering the two-language configuration by `zzz` selects
nothing and exits 1. -/
theorem C9_exit_codes_witness :
    _filter_langs [specA, specB] (parseLangs "zzz") = []
    ∧ main wAll entries0 "dist" "build" "zzz" false [] =
        ([Event.print "No languages selected."], Except.ok 1) :=
  (C9_exit_codes wAll entries0 "dist" "build" "zzz" false [] [specA, specB]
    rfl rfl).1 ["zzz"] rfl (by decide)

/-- Acquisition without the clean flag over an existing working copy: no
removal, no clone; only the optional checkout runs. -/
theorem clone_repo_reused (w : World) (spec : LanguageSpec) (workDir : String)
    (fs : List String) (hmem : repoDirOf spec workDir ∈ fs) :
    _clone_repo w spec workDir false fs =
      (match spec.ref with
       | none => ([], fs, Except.ok (repoDirOf spec workDir))
       | some rf =>
         if rf.isEmpty then ([], fs, Except.ok (repoDirOf spec workDir))
         else if w.cmdExit (Cmd.checkout rf (repoDirOf spec workDir)) = 0 then
           ([Event.print ("$ " ++ cmdString (Cmd.checkout rf (repoDirOf spec workDir))),
             Event.run (Cmd.checkout rf (repoDirOf spec workDir))], fs,
            Except.ok (repoDirOf spec workDir))
         else
           ([Event.print ("$ " ++ cmdString (Cmd.checkout rf (repoDirOf spec workDir))),
             Event.run (Cmd.checkout rf (repoDirOf spec workDir))], fs,
            Except.error (Err.processError (Cmd.checkout rf (repoDirOf spec workDir))
              (w.cmdExit (Cmd.checkout rf (repoDirOf spec workDir)))))) := by
  rcases href : spec.ref with _ | rf
  · simp [_clone_repo, _run, hmem, href]
  · by_cases hemp : rf.isEmpty = true
    · simp [_clone_repo, _run, hmem, href, hemp]
    · by_cases hexit : w.cmdExit (Cmd.checkout rf (repoDirOf spec workDir)) = 0
      · simp [_clone_repo, _run, hmem, href, hemp, hexit]
      · simp [_clone_repo, _run, hmem, href, hemp, hexit]

/-- Acquisition without the clean flag over an absent working copy, with a
successful clone: the clone runs, the directory now exists, and the optional
checkout runs on the fresh copy. -/
theorem clone_repo_fresh_ok (w : World) (spec : LanguageSpec) (workDir : String)
    (fs : List String) (hmem : repoDirOf spec workDir ∉ fs)
    (hexit : w.cmdExit (Cmd.clone spec.repo (repoDirOf spec workDir)) = 0) :
    _clone_repo w spec workDir false fs =
      (match spec.ref with
       | none =>
         ([Event.print ("$ " ++ cmdString (Cmd.clone spec.repo (repoDirOf spec workDir))),
           Event.run (Cmd.clone spec.repo (repoDirOf spec workDir))],
          repoDirOf spec workDir :: fs, Except.ok (repoDirOf spec workDir))
       | some rf =>
         if rf.isEmpty then
           ([Event.print ("$ " ++ cmdString (Cmd.clone spec.repo (repoDirOf spec workDir))),
             Event.run (Cmd.clone spec.repo (repoDirOf spec workDir))],
            repoDirOf spec workDir :: fs, Except.ok (repoDirOf spec workDir))
         else if w.cmdExit (Cmd.checkout rf (repoDirOf spec workDir)) = 0 then
           ([Event.print ("$ " ++ cmdString (Cmd.clone spec.repo (repoDirOf spec workDir))),
             Event.run (Cmd.clone spec.repo (repoDirOf spec workDir)),
             Event.print ("$ " ++ cmdString (Cmd.checkout rf (repoDirOf spec workDir))),
             Event.run (Cmd.checkout rf (repoDirOf spec workDir))],
            repoDirOf spec workDir :: fs, Except.ok (repoDirOf spec workDir))
         else
           ([Event.print ("$ " ++ cmdString (Cmd.clone spec.repo (repoDirOf spec workDir))),
             Event.run (Cmd.clone spec.repo (repoDirOf spec workDir)),
             Event.print ("$ " ++ cmdString (Cmd.checkout rf (repoDirOf spec workDir))),
             Event.run (Cmd.checkout rf (repoDirOf spec workDir))],
            repoDirOf spec workDir :: fs,
            Except.error (Err.processError (Cmd.checkout rf (repoDirOf spec workDir))
              (w.cmdExit (Cmd.checkout rf (repoDirOf spec workDir)))))) := by
  rcases href : spec.ref with _ | rf
  · simp [_clone_repo, _run, hmem, href, hexit]
  · by_cases hemp : rf.isEmpty = true
    · simp [_clone_repo, _run, hmem, href, hemp, hexit]
    · by_cases hexit2 : w.cmdExit (Cmd.checkout rf (repoDirOf spec workDir)) = 0
      · simp [_clone_repo, _run, hmem, href, hemp, hexit, hexit2]
      · simp [_clone_repo, _run, hmem, href, hemp, hexit, hexit2]

/-- Acquisition without the clean flag over an absent working copy, with a
failing clone: the process error propagates. -/
theorem clone_repo_fresh_fail (w : World) (spec : LanguageSpec) (workDir : String)
    (fs : List String) (hmem : repoDirOf spec workDir ∉ fs)
    (hexit : w.cmdExit (Cmd.clone spec.repo (repoDirOf spec workDir)) ≠ 0) :
    _clone_repo w spec workDir false fs =
      ([Event.print ("$ " ++ cmdString (Cmd.clone spec.repo (repoDirOf spec workDir))),
        Event.run (Cmd.clone spec.repo (repoDirOf spec workDir))], fs,
       Except.error (Err.processError (Cmd.clone spec.repo (repoDirOf spec workDir))
         (w.cmdExit (Cmd.clone spec.repo (repoDirOf spec workDir))))) := by
  simp [_clone_repo, _run, hmem, hexit]

/-- C5: acquisition with the clean flag off is idempotent: any successful
acquisition returns the deterministic working-copy path and leaves the
working copy in existence; when the working copy already exists no clone is
invoked, the filesystem is unchanged, without a pinned ref the call is a pure
no-op returning the same path, and with a truthy pinned ref the checkout is
performed on the reused copy; the checkout is likewise performed after a
fresh clone — regardless of whether the clone was fresh. -/
theorem C5_acquisition_idempotent (w : World) (spec : LanguageSpec)
    (workDir : String) (fs : List String) :
    (∀ ev fs2 p, _clone_repo w spec workDir false fs = (ev, fs2, Except.ok p) →
       p = repoDirOf spec workDir ∧ repoDirOf spec workDir ∈ fs2)
    ∧ (repoDirOf spec workDir ∈ fs →
       (∀ repo dest, Event.run (Cmd.clone repo dest) ∉
          (_clone_repo w spec workDir false fs).1)
       ∧ (_clone_repo w spec workDir false fs).2.1 = fs
       ∧ (spec.ref = none →
          _clone_repo w spec workDir false fs =
            ([], fs, Except.ok (repoDirOf spec workDir)))
       ∧ (∀ rf, spec.ref = some rf → rf.isEmpty = false →
          Event.run (Cmd.checkout rf (repoDirOf spec workDir)) ∈
            (_clone_repo w spec workDir false fs).1))
    ∧ (repoDirOf spec workDir ∉ fs →
       w.cmdExit (Cmd.clone spec.repo (repoDirOf spec workDir)) = 0 →
       ∀ rf, spec.ref = some rf → rf.isEmpty = false →
       Event.run (Cmd.checkout rf (repoDirOf spec workDir)) ∈
         (_clone_repo w spec workDir false fs).1) := by
  refine ⟨?_, ?_, ?_⟩
  · intro ev fs2 p h
    by_cases hmem : repoDirOf spec workDir ∈ fs
    · rw [clone_repo_reused w spec workDir fs hmem] at h
      rcases href : spec.ref with _ | rf <;> simp only [href] at h
      · simp only [Prod.mk.injEq, Except.ok.injEq] at h
        exact ⟨h.2.2.symm, h.2.1 ▸ hmem⟩
      · by_cases hemp : rf.isEmpty = true
        · rw [if_pos hemp] at h
          simp only [Prod.mk.injEq, Except.ok.injEq] at h
          exact ⟨h.2.2.symm, h.2.1 ▸ hmem⟩
        · rw [if_neg hemp] at h
          by_cases hexit : w.cmdExit (Cmd.checkout rf (repoDirOf spec workDir)) = 0
          · rw [if_pos hexit] at h
            simp only [Prod.mk.injEq, Except.ok.injEq] at h
            exact ⟨h.2.2.symm, h.2.1 ▸ hmem⟩
          · rw [if_neg hexit] at h
            simp at h
    · by_cases hexit : w.cmdExit (Cmd.clone spec.repo (repoDirOf spec workDir)) = 0
      · rw [clone_repo_fresh_ok w spec workDir fs hmem hexit] at h
        rcases href : spec.ref with _ | rf <;> simp only [href] at h
        · simp only [Prod.mk.injEq, Except.ok.injEq] at h
          refine ⟨h.2.2.symm, ?_⟩
          rw [← h.2.1]
          exact List.mem_cons_self _ _
        · by_cases hemp : rf.isEmpty = true
          · rw [if_pos hemp] at h
            simp only [Prod.mk.injEq, Except.ok.injEq] at h
            refine ⟨h.2.2.symm, ?_⟩
            rw [← h.2.1]
            exact List.mem_cons_self _ _
          · rw [if_neg hemp] at h
            by_cases hexit2 : w.cmdExit (Cmd.checkout rf (repoDirOf spec workDir)) = 0
            · rw [if_pos hexit2] at h
              simp only [Prod.mk.injEq, Except.ok.injEq] at h
              refine ⟨h.2.2.symm, ?_⟩
              rw [← h.2.1]
              exact List.mem_cons_self _ _
            · rw [if_neg hexit2] at h
              simp at h
      · rw [clone_repo_fresh_fail w spec workDir fs hmem hexit] at h
        simp at h
  · intro hmem
    rw [clone_repo_reused w spec workDir fs hmem]
    refine ⟨?_, ?_, ?_, ?_⟩
    · intro repo dest
      rcases href : spec.ref with _ | rf
      · simp
      · by_cases hemp : rf.isEmpty = true
        · simp [hemp]
        · by_cases hexit : w.cmdExit (Cmd.checkout rf (repoDirOf spec workDir)) = 0 <;>
            simp [hemp, hexit]
    · rcases href : spec.ref with _ | rf
      · rfl
      · by_cases hemp : rf.isEmpty = true
        · simp [hemp]
        · by_cases hexit : w.cmdExit (Cmd.checkout rf (repoDirOf spec workDir)) = 0 <;>
            simp [hemp, hexit]
    · intro href
      rw [href]
    · intro rf href hemp
      rw [href]
      by_cases hexit : w.cmdExit (Cmd.checkout rf (repoDirOf spec workDir)) = 0 <;>
        simp [hemp, hexit]
  · intro hmem hexit rf href hemp
    rw [clone_repo_fresh_ok w spec workDir fs hmem hexit, href]
    by_cases hexit2 : w.cmdExit (Cmd.checkout rf (repoDirOf spec workDir)) = 0 <;>
      simp [hemp, hexit2]

/-- Witness for C5: acquiring an already-present pinned working copy clones
nothing and checks out the pinned revision. -/
theorem C5_acquisition_idempotent_witness :
    (∀ repo dest, Event.run (Cmd.clone repo dest) ∉
       (_clone_repo wAll specRef "build" false [repoDirOf specRef "build"]).1)
    ∧ Event.run (Cmd.checkout "v1" (repoDirOf specRef "build")) ∈
       (_clone_repo wAll specRef "build" false [repoDirOf specRef "build"]).1 := by
  have h := (C5_acquisition_idempotent wAll specRef "build"
    [repoDirOf specRef "build"]).2.1 (by simp)
  exact ⟨h.1, h.2.2.2 "v1" rfl rfl⟩

/-- Acquisition performs no copy, directory creation or file write. -/
theorem clone_repo_events_shell (w : World) (spec : LanguageSpec)
    (workDir : String) (clean : Bool) (fs : List String) :
    ∀ ev ∈ (_clone_repo w spec workDir clean fs).1, isShellEvent ev = true := by
  intro ev hev
  simp only [_clone_repo, _run] at hev
  repeat' split at hev
  all_goals simp at hev
  all_goals (repeat' (rcases hev with rfl | hev))
  all_goals rfl

/-- The build performs no copy, directory creation or file write. -/
theorem compile_repo_events_shell (w : World) (repoDir : String) :
    ∀ ev ∈ (_compile_repo w repoDir).1, isShellEvent ev = true := by
  intro ev hev
  simp only [_compile_repo, _run] at hev
  repeat' split at hev
  all_goals simp at hev
  all_goals (repeat' (rcases hev with rfl | hev))
  all_goals rfl

/-- C1 (amended): a process error (non-zero exit of an external tool) during
acquisition or build of one language aborts the whole run, not only that
language's iteration: the batch's trace is exactly the failing language's
trace, the same error propagates, and none of the remaining languages of the
batch is processed. -/
theorem C1_process_error_aborts_batch (w : World) (outDir workDir : String)
    (clean : Bool) (fs : List String) (spec : LanguageSpec)
    (rest : List LanguageSpec) (e : Err)
    (h : (processSpecs w outDir workDir clean fs [spec]).2 = Except.error e) :
    processSpecs w outDir workDir clean fs (spec :: rest) =
      ((processSpecs w outDir workDir clean fs [spec]).1, Except.error e) := by
  rcases hc : (_clone_repo w spec workDir clean fs).2.2 with e1 | repoDir
  · have h2 : e1 = e := by
      have hcopy := h
      simp only [processSpecs, hc] at hcopy
      exact Except.error.inj hcopy
    subst h2
    simp [processSpecs, hc]
  · rcases hb : (_compile_repo w repoDir).2 with e2 | u
    · have h2 : e2 = e := by
        have hcopy := h
        simp only [processSpecs, hc, hb] at hcopy
        exact Except.error.inj hcopy
      subst h2
      simp [processSpecs, hc, hb]
    · exfalso
      have hcopy := h
      simp only [processSpecs, hc, hb] at hcopy
      simp at hcopy

/-- Witness for C1 (amended): with language `aaa` failing to clone, the
two-language batch's run is exactly `aaa`'s failing run. -/
theorem C1_process_error_aborts_batch_witness :
    processSpecs wCloneFail "dist" "build" false [] (specA :: [specB]) =
      ((processSpecs wCloneFail "dist" "build" false [] [specA]).1,
       Except.error (Err.processError
         (Cmd.clone "urlA" (pathJoin "build" ("apertium-" ++ "aaa"))) 1)) :=
  C1_process_error_aborts_batch wCloneFail "dist" "build" false [] specA [specB]
    _ (by decide)

/-- Counterexample to C1 as stated: with two configured languages and the
first one's clone exiting non-zero, the program aborts with that process
error and the second language is never processed — its header is never
printed and its repository is never cloned. -/
theorem C1_counterexample_batch_not_isolated :
    (main wCloneFail entries0 "dist" "build" "" false []).2 =
      Except.error (Err.processError
        (Cmd.clone "urlA" (pathJoin "build" ("apertium-" ++ "aaa"))) 1)
    ∧ Event.print "\n=== bbb (bbb) ===" ∉
        (main wCloneFail entries0 "dist" "build" "" false []).1
    ∧ Event.run (Cmd.clone "urlB" (pathJoin "build" ("apertium-" ++ "bbb"))) ∉
        (main wCloneFail entries0 "dist" "build" "" false []).1 := by
  decide

/-- C2 (amended): when a language's build step fails (a bootstrap, configure
or make sub-step exits non-zero without a successful fallback), the process
error propagates immediately: the language's trace consists of its
acquisition and build events only, and the harvest, license and metadata
steps are not executed for it — no file is copied, no output directory is
created, and no descriptor is written. -/
theorem C2_failed_build_skips_harvest (w : World) (outDir workDir : String)
    (clean : Bool) (fs : List String) (spec : LanguageSpec) (repoDir : String)
    (e : Err)
    (hclone : (_clone_repo w spec workDir clean fs).2.2 = Except.ok repoDir)
    (hbuild : (_compile_repo w repoDir).2 = Except.error e) :
    processSpecs w outDir workDir clean fs [spec] =
      (Event.print ("\n=== " ++ spec.code ++ " (" ++ spec.name ++ ") ===") ::
         (_clone_repo w spec workDir clean fs).1 ++ (_compile_repo w repoDir).1,
       Except.error e)
    ∧ (∀ s d, Event.copyFile s d ∉ (processSpecs w outDir workDir clean fs [spec]).1)
    ∧ (∀ p, Event.writeFile p ∉ (processSpecs w outDir workDir clean fs [spec]).1)
    ∧ (∀ p, Event.mkdir p ∉ (processSpecs w outDir workDir clean fs [spec]).1) := by
  have htrace : processSpecs w outDir workDir clean fs [spec] =
      (Event.print ("\n=== " ++ spec.code ++ " (" ++ spec.name ++ ") ===") ::
         (_clone_repo w spec workDir clean fs).1 ++ (_compile_repo w repoDir).1,
       Except.error e) := by
    simp [processSpecs, hclone, hbuild]
  have hshell : ∀ ev ∈ (processSpecs w outDir workDir clean fs [spec]).1,
      ev = Event.print ("\n=== " ++ spec.code ++ " (" ++ spec.name ++ ") ===")
      ∨ isShellEvent ev = true := by
    intro ev hev
    rw [htrace] at hev
    rcases List.mem_cons.mp hev with heq | hmem2
    · exact Or.inl heq
    · rcases List.mem_append.mp hmem2 with hm | hm
      · exact Or.inr (clone_repo_events_shell w spec workDir clean fs ev hm)
      · exact Or.inr (compile_repo_events_shell w repoDir ev hm)
  refine ⟨htrace, ?_, ?_, ?_⟩
  · intro s d hmem
    rcases hshell _ hmem with heq | hsh
    · exact Event.noConfusion heq
    · exact Bool.noConfusion hsh
  · intro p hmem
    rcases hshell _ hmem with heq | hsh
    · exact Event.noConfusion heq
    · exact Bool.noConfusion hsh
  · intro p hmem
    rcases hshell _ hmem with heq | hsh
    · exact Event.noConfusion heq
    · exact Bool.noConfusion hsh

/-- Witness for C2 (amended): with `./configure` of language `aaa` failing,
the language's run is its acquisition and build events with the propagated
error. -/
theorem C2_failed_build_skips_harvest_witness :
    processSpecs wBuildFail "dist" "build" false [] [specA] =
      (Event.print ("\n=== " ++ specA.code ++ " (" ++ specA.name ++ ") ===") ::
         (_clone_repo wBuildFail specA "build" false []).1 ++
           (_compile_repo wBuildFail (pathJoin "build" ("apertium-" ++ "aaa"))).1,
       Except.error (Err.processError
         (Cmd.configure (pathJoin "build" ("apertium-" ++ "aaa"))) 1)) :=
  (C2_failed_build_skips_harvest wBuildFail "dist" "build" false [] specA
    (pathJoin "build" ("apertium-" ++ "aaa"))
    (Err.processError (Cmd.configure (pathJoin "build" ("apertium-" ++ "aaa"))) 1)
    (by decide) (by decide)).1

/-- Counterexample to C2 as stated: with `./configure` of language `aaa`
exiting non-zero, the run aborts with that process error and no harvest,
license or metadata step executes — the per-language output directory is
never created, the license is never copied, and the descriptor is never
written. -/
theorem C2_counterexample_no_harvest_after_failed_build :
    (main wBuildFail entries0 "dist" "build" "" false []).2 =
      Except.error (Err.processError
        (Cmd.configure (pathJoin "build" ("apertium-" ++ "aaa"))) 1)
    ∧ Event.mkdir (pathJoin "dist" "aaa") ∉
        (main wBuildFail entries0 "dist" "build" "" false []).1
    ∧ Event.copyFile "fb/LICENSE" (pathJoin (pathJoin "dist" "aaa") "LICENSE") ∉
        (main wBuildFail entries0 "dist" "build" "" false []).1
    ∧ Event.writeFile (pathJoin (pathJoin "dist" "aaa") "metadata.json") ∉
        (main wBuildFail entries0 "dist" "build" "" false []).1 := by
  decide

end CompileApertium
